import Mathlib

set_option maxRecDepth 8000

/-!
Shallow embedding of the acd-l5x-tool-lib exploratory C tools
(src/acd_extractor.c, src/acd_parser.c, src/comprehensive_acd_parser.c).

Containers and decompressed payloads are byte lists (List Nat, bytes below 256).
Every C loop is embedded as a structurally recursive Lean function; unbounded
while loops take an explicit fuel argument, and the top-level wrappers pass a
fuel that is proved (or checked) sufficient.  Out-of-range reads use getD with
default 0; guards of the C code keep the interesting reads in range.  The zlib
inflate call is external to the repository and is modelled as a parameter
(its return status and output bytes).
-/

namespace ACD

/-- Gzip magic pair 0x1F 0x8B at position p of the container
(acd_extractor.c line 210, acd_parser.c line 78). -/
def isMagic (data : List Nat) (p : Nat) : Bool :=
  data.getD p 0 = 0x1F && data.getD (p + 1) 0 = 0x8B

/-! ## Preamble splitter (acd_extractor.c lines 178-193, acd_parser.c lines 27-60) -/

/-- Model of fgets(buf, n, f) reading from the remaining bytes: collects bytes up
to and including the first LF, at most n - 1 bytes.  Bytes 0x00 read from the
file are stored in the buffer like any other byte; the C string scans applied
to the buffer later stop at them. -/
def fgetsChunk : Nat → List Nat → List Nat
  | 0, _ => []
  | _, [] => []
  | n + 1, b :: rest => if b = 10 then [10] else b :: fgetsChunk n rest

/-- Binary-line test of acd_extractor.c main (lines 182-188): the for loop runs
while line[i] is nonzero, so it stops at the first 0x00 byte. -/
def lineIsBinary : List Nat → Bool
  | [] => false
  | b :: rest =>
    if b = 0 then false
    else if b < 32 ∧ b ≠ 13 ∧ b ≠ 10 ∧ b ≠ 9 then true
    else lineIsBinary rest

/-- Text-line test of acd_parser.c read_text_header (lines 36-42): the loop runs
while buffer[i] is nonzero and not LF. -/
def lineIsTextP : List Nat → Bool
  | [] => true
  | b :: rest =>
    if b = 0 ∨ b = 10 then true
    else if b < 32 ∧ b ≠ 13 ∧ b ≠ 10 ∧ b ≠ 9 then false
    else lineIsTextP rest

/-- Model of strlen on the fgets buffer: length up to the first 0x00 byte. -/
def strlenM (l : List Nat) : Nat := (l.takeWhile (fun b => b != 0)).length

/-- Loop of acd_extractor.c main lines 181-193: on the first binary line it sets
binary_start = ftell(file) - strlen(line); ftell is the position after the
chunk.  The char line[1024] buffer lets fgets read at most 1023 bytes. -/
def fbsGoF : Nat → List Nat → Nat → Nat
  | 0, _, _ => 0
  | fuel + 1, data, pos =>
    if fgetsChunk 1023 (data.drop pos) = [] then 0
    else if lineIsBinary (fgetsChunk 1023 (data.drop pos)) then
      pos + (fgetsChunk 1023 (data.drop pos)).length - strlenM (fgetsChunk 1023 (data.drop pos))
    else fbsGoF fuel data (pos + (fgetsChunk 1023 (data.drop pos)).length)

/-- binary_start computed by acd_extractor.c main; 0 when no binary line is found. -/
def findBinaryStart (data : List Nat) : Nat := fbsGoF (data.length + 1) data 0

/-- Loop of acd_parser.c read_text_header lines 34-56: pos is the ftell value
recorded after the previous line, i.e. the start offset of the current line;
BUFFER_SIZE is 4096 so fgets reads at most 4095 bytes. -/
def rthGoF : Nat → List Nat → Nat → Nat
  | 0, _, _ => 0
  | fuel + 1, data, pos =>
    if fgetsChunk 4095 (data.drop pos) = [] then 0
    else if lineIsTextP (fgetsChunk 4095 (data.drop pos)) then
      rthGoF fuel data (pos + (fgetsChunk 4095 (data.drop pos)).length)
    else pos

/-- binary_start computed by acd_parser.c read_text_header; 0 when never set. -/
def read_text_header (data : List Nat) : Nat := rthGoF (data.length + 1) data 0

/-! ## Segment scanner (acd_extractor.c main lines 200-216) -/

/-- Uncapped window scan: the while loop runs while offset < file_size - 10,
reads bytes_read = min 4096 (file_size - offset) bytes, checks window positions
i < bytes_read - 10 for the magic pair (buffer[i] = data[offset + i]), and then
advances offset by bytes_read - 10.  This variant omits the 20-block cap and
returns the visited candidate offsets; none signals insufficient fuel. -/
def scanGoF : Nat → List Nat → Nat → Option (List Nat)
  | 0, _, _ => none
  | fuel + 1, data, offset =>
    if offset + 10 < data.length then
      match scanGoF fuel data (offset + (min 4096 (data.length - offset) - 10)) with
      | none => none
      | some t =>
        some ((List.range' offset (min 4096 (data.length - offset) - 10)).filter
          (isMagic data) ++ t)
    else some []

/-- Candidate offsets visited by the uncapped scan from a given start offset. -/
def scanOffsets (data : List Nat) (start : Nat) : List Nat :=
  (scanGoF (data.length + 1) data start).getD []

/-- Inner window loop with the counter of main lines 209-214: ++block_count on
every magic hit (the extract_gzip_block return value is ignored) and goto done
as soon as the counter reaches cap.  Returns (hits, new count, stopped). -/
def scanCapInner (data : List Nat) : List Nat → Nat → Nat → List Nat × Nat × Bool
  | [], c, _ => ([], c, false)
  | p :: rest, c, cap =>
    if isMagic data p then
      if cap ≤ c + 1 then ([p], c + 1, true)
      else
        let r := scanCapInner data rest (c + 1) cap
        (p :: r.1, r.2.1, r.2.2)
    else scanCapInner data rest c cap

/-- Capped window scan of acd_extractor.c main lines 205-216. -/
def scanCapGoF : Nat → List Nat → Nat → Nat → Nat → Option (List Nat)
  | 0, _, _, _, _ => none
  | fuel + 1, data, offset, c, cap =>
    if offset + 10 < data.length then
      match scanCapInner data (List.range' offset (min 4096 (data.length - offset) - 10)) c cap with
      | (hits, c2, stopped) =>
        if stopped then some hits
        else
          match scanCapGoF fuel data (offset + (min 4096 (data.length - offset) - 10)) c2 cap with
          | none => none
          | some t => some (hits ++ t)
    else some []

/-- Candidate offsets visited by main with its block_count cap of 20. -/
def scanCapped (data : List Nat) (start : Nat) : List Nat :=
  (scanCapGoF (data.length + 1) data start 0 20).getD []

/-- Decoded segments are the visited offsets whose decode succeeds; decodeOk
abstracts the outcome of extract_gzip_block, whose return value main ignores. -/
def segmentsOf (decodeOk : Nat → Bool) (visited : List Nat) : List Nat :=
  visited.filter decodeOk

/-! ## Block search of acd_parser.c find_compressed_blocks (lines 63-118) -/

/-- Inner window loop of find_compressed_blocks: counts magic hits and returns
from the whole function once the count reaches 10.  The test decompression in
the body only prints and does not affect control flow. -/
def fcbInner (data : List Nat) : List Nat → Nat → Nat × Bool
  | [], c => (c, false)
  | p :: rest, c =>
    if isMagic data p then
      if 10 ≤ c + 1 then (c + 1, true) else fcbInner data rest (c + 1)
    else fcbInner data rest c

/-- Outer loop of find_compressed_blocks: guard offset < file_size - 2, window
of bytes_read = min 4096 (file_size - offset) bytes, advance by bytes_read - 10.
With exactly 10 bytes remaining the advance is 0 and the state repeats; the
model uses truncated subtraction, which coincides with the C size_t arithmetic
whenever bytes_read is at least 10 (below 10 the C loop bound underflows and
the program reads out of bounds).  none signals that the given fuel was not
enough for the loop to finish. -/
def fcbGoF : Nat → List Nat → Nat → Nat → Option Nat
  | 0, _, _, _ => none
  | fuel + 1, data, offset, c =>
    if offset + 2 < data.length then
      let r := fcbInner data (List.range' offset (min 4096 (data.length - offset) - 10)) c
      if r.2 then some r.1
      else fcbGoF fuel data (offset + (min 4096 (data.length - offset) - 10)) r.1
    else some c

/-! ## Payload classifier and decoder wrapper (acd_extractor.c lines 12-115) -/

/-- Byte accepted by the preview loop of extract_gzip_block lines 73-80. -/
def isPrintableByte (b : Nat) : Bool :=
  (decide (32 ≤ b) && decide (b ≤ 126)) || b == 10 || b == 13 || b == 9

inductive PayloadClass where
  | Text
  | Binary
deriving DecidableEq, Repr

/-- Text/Binary classification of extract_gzip_block lines 72-91: scan at most
the first 50 bytes; the Text branch additionally requires decomp_size > 0. -/
def classify_text (p : List Nat) : PayloadClass :=
  if (p.take 50).all isPrintableByte ∧ 0 < p.length then PayloadClass.Text
  else PayloadClass.Binary

/-- Literal <?xml as bytes. -/
def xmlLit : List Nat := [60, 63, 120, 109, 108]

/-- Xml tag of extract_gzip_block lines 95-106: requires decomp_size > 5,
strictly, and the first five bytes equal to the literal. -/
def classify_xml (p : List Nat) : Bool :=
  decide (5 < p.length) && decide (p.take 5 = xmlLit)

/-- Outcome of the zlib inflate call: return status (Z_OK = 0, Z_STREAM_END = 1,
errors negative) and produced bytes (strm.total_out is out.length).  zlib is
external to the repository, so inflate is a parameter of the model. -/
structure InflateOut where
  ret : Int
  out : List Nat
deriving DecidableEq, Repr

/-- Observable outcome of extract_gzip_block: its return value, whether the
bin artifact was written, whether the xml artifact was written, and the total
number of decompressed bytes. -/
structure ExtractResult where
  ret : Int
  binWritten : Bool
  xmlWritten : Bool
  totalOut : Nat
deriving DecidableEq, Repr

/-- Model of extract_gzip_block (acd_extractor.c lines 12-115).  The early
returns -1 on a short header read, failed magic re-verification and failed
inflateInit2 (initOk) happen before any decompression, hence totalOut 0.
Otherwise the artifacts are written exactly in the Z_OK / Z_STREAM_END branch
(fopen is assumed to succeed), and the final return value is computed from
decomp_size = strm.total_out alone: decomp_size > 0 ? 0 : -1. -/
def extract_gzip_block (data : List Nat) (offset : Nat) (initOk : Bool)
    (infl : InflateOut) : ExtractResult :=
  if data.length < offset + 10 then ⟨-1, false, false, 0⟩
  else if isMagic data offset = false then ⟨-1, false, false, 0⟩
  else if initOk = false then ⟨-1, false, false, 0⟩
  else if infl.ret = 1 ∨ infl.ret = 0 then
    ⟨if 0 < infl.out.length then 0 else -1, true, classify_xml infl.out, infl.out.length⟩
  else
    ⟨if 0 < infl.out.length then 0 else -1, false, false, infl.out.length⟩

/-! ## Component recovery (comprehensive_acd_parser.c) -/

/-- Recovered component record: uid and name; parent_uid, ordinal and type are
never populated by the parser and are omitted. -/
structure Component where
  uid : Nat
  name : List Nat
deriving DecidableEq, Repr

/-- Byte collection loop of read_string (lines 35-46): while i < 255 and
i < max_len and data[offset + i] is nonzero. -/
def readStrGo (data : List Nat) (offset : Nat) : Nat → List Nat
  | 0 => []
  | n + 1 =>
    if data.getD offset 0 = 0 then []
    else data.getD offset 0 :: readStrGo data (offset + 1) n

/-- Model of read_string (comprehensive_acd_parser.c lines 35-46). -/
def read_string (data : List Nat) (offset : Nat) (maxLen : Nat) : List Nat :=
  readStrGo data offset (min 255 maxLen)

/-- Model of read_uint32_le (lines 49-54); for bytes below 256 the or-shift
expression equals this sum. -/
def read_uint32_le (data : List Nat) (offset : Nat) : Nat :=
  data.getD offset 0 + data.getD (offset + 1) 0 * 256 +
    data.getD (offset + 2) 0 * 65536 + data.getD (offset + 3) 0 * 16777216

/-- Field-name loop of parse_comps_database (lines 70-78): reads strings until
an empty one or 20 fields, returning the offset just past the table.  At most
20 iterations run, so fuel 21 is always sufficient. -/
def readFieldsF : Nat → List Nat → Nat → Nat → Nat
  | 0, _, offset, _ => offset
  | fuel + 1, data, offset, count =>
    if offset < data.length ∧ count < 20 then
      if (read_string data offset 50).length = 0 then offset
      else readFieldsF fuel data (offset + (read_string data offset 50).length + 1) (count + 1)
    else offset

/-- memcmp(data + i, lit, lit.length) == 0 as a byte-wise test. -/
def matchesAt (data : List Nat) : Nat → List Nat → Bool
  | _, [] => true
  | i, b :: rest => data.getD i 0 = b && matchesAt data (i + 1) rest

def datLit : List Nat := [46, 100, 97, 116]

def idxLit : List Nat := [46, 105, 100, 120]

/-- Marker search loop of parse_comps_database (lines 83-93): for every i it
first updates dat_offset on a .dat match (no break), then on a .idx match sets
idx_offset and breaks.  Both offsets point 8 bytes past the marker start. -/
def findMarkersGo (data : List Nat) : List Nat → Nat → Nat × Nat
  | [], dat => (dat, 0)
  | i :: rest, dat =>
    let dat2 := if matchesAt data i datLit then i + 8 else dat
    if matchesAt data i idxLit then (dat2, i + 8)
    else findMarkersGo data rest dat2

/-- Marker search over i from start while i < data_size - 10. -/
def findMarkers (data : List Nat) (start : Nat) : Nat × Nat :=
  findMarkersGo data (List.range' start (data.length - 10 - start)) 0

/-- Name probe of lines 116-130: for j from current + 4 while j < current + 100
and j < data_size - 50, at the first byte in the character range from A to z
read a string; accept when its length is strictly between 3 and 40, otherwise
keep probing. -/
def tryName (data : List Nat) : List Nat → Option (Nat × List Nat)
  | [] => none
  | j :: rest =>
    if 65 ≤ data.getD j 0 ∧ data.getD j 0 ≤ 122 then
      if 3 < (read_string data j 50).length ∧ (read_string data j 50).length < 40 then
        some (j, read_string data j 50)
      else tryName data rest
    else tryName data rest

/-- Candidate record at position current (lines 106-118): the next four bytes
as a little-endian uid, accepted when nonzero and below 0x10000, and then the
name probe over j from current + 4 while j < current + 100 and
j < data_size - 50. -/
def candidate (data : List Nat) (current : Nat) : Option (Nat × List Nat) :=
  if 0 < read_uint32_le data current ∧ read_uint32_le data current < 65536 then
    tryName data
      (List.range' (current + 4) (min (current + 100) (data.length - 50) - (current + 4)))
  else none

/-- Record walk of parse_comps_database lines 103-136, parameterised by the
global component_count value at entry (count).  While current < data_size - 100
and count < MAX_COMPONENTS (10000): on an accepted candidate emit the
component, advance current to j + strlen(name) + 20 and then by the common
current += 4, and stop when the incremented count reaches 50; otherwise
advance by 4 and stop when count is already at least 50.  Returns the
components emitted by this call. -/
def walkF : Nat → List Nat → Nat → Nat → List Component
  | 0, _, _, _ => []
  | fuel + 1, data, current, count =>
    if current + 100 < data.length ∧ count < 10000 then
      match candidate data current with
      | some (j, nm) =>
        if 50 ≤ count + 1 then [⟨read_uint32_le data current, nm⟩]
        else ⟨read_uint32_le data current, nm⟩ :: walkF fuel data (j + nm.length + 20 + 4) (count + 1)
      | none =>
        if 50 ≤ count then [] else walkF fuel data (current + 4) count
    else []

/-- Model of parse_comps_database (lines 57-147) returning the components this
call appends to the global array; count0 is the global component_count at
entry (0 on the first call of a process).  The walk advances current by at
least 4 per iteration, so fuel data.length + 1 is sufficient. -/
def parse_comps_database (data : List Nat) (startOff : Nat) (count0 : Nat) : List Component :=
  if 0 < (findMarkers data (readFieldsF 21 data (startOff + 6) 0)).1 then
    walkF (data.length + 1) data (findMarkers data (readFieldsF 21 data (startOff + 6) 0)).1 count0
  else []

def compsLit : List Nat := [67, 111, 109, 112, 115]

/-- Comps marker search of main (lines 231-236): first i with a match, running
i while i < file_size - 5; comps_offset keeps its initial value 0 when no match
is found. -/
def findCompsGo (data : List Nat) : List Nat → Nat
  | [] => 0
  | i :: rest => if matchesAt data i compsLit then i else findCompsGo data rest

def findComps (data : List Nat) : Nat := findCompsGo data (List.range (data.length - 5))

/-- Component recovery as composed by main (lines 229-240): locate the Comps
marker and parse only when the found offset is positive. -/
def recover_components (data : List Nat) : List Component :=
  if 0 < findComps data then parse_comps_database data (findComps data) 0 else []

/-! ## Concrete byte inputs used by the witnesses and counterexamples -/

/-- The example buffer of the spec, with the Comps marker at payload offset 0:
Comps NUL, field names Id NUL Name NUL, empty-string terminator, the .dat
marker and its 4-byte pad, the little-endian uid 5, XValve NUL, zero padding
to 124 bytes. -/
def examplePayload : List Nat :=
  [67, 111, 109, 112, 115, 0,
   73, 100, 0,
   78, 97, 109, 101, 0,
   0,
   46, 100, 97, 116, 0, 0, 0, 0,
   5, 0, 0, 0,
   88, 86, 97, 108, 118, 101, 0] ++ List.replicate 90 0

/-- Payload holding the Comps marker, one field name Id, the .dat marker
followed directly by the .idx marker (so the marker scan breaks early), then
26 synthetic 32-byte records (uid k, then the name Name, zero padding) and a
zero tail; 920 bytes in total, written out flat so that evaluation is cheap. -/
def retryPayload : List Nat :=
  [67, 111, 109, 112, 115, 0, 73, 100, 0, 0, 46, 100, 97, 116, 46, 105, 100, 120, 1, 0, 0, 0, 78, 97, 109, 101, 0, 0, 0, 0,
   0, 0, 0, 0, 0, 0, 0, 0, 0, 0, 0, 0, 0, 0, 0, 0, 0, 0, 0, 0, 2, 0, 0, 0, 78, 97, 109, 101, 0, 0,
   0, 0, 0, 0, 0, 0, 0, 0, 0, 0, 0, 0, 0, 0, 0, 0, 0, 0, 0, 0, 0, 0, 3, 0, 0, 0, 78, 97, 109, 101,
   0, 0, 0, 0, 0, 0, 0, 0, 0, 0, 0, 0, 0, 0, 0, 0, 0, 0, 0, 0, 0, 0, 0, 0, 4, 0, 0, 0, 78, 97,
   109, 101, 0, 0, 0, 0, 0, 0, 0, 0, 0, 0, 0, 0, 0, 0, 0, 0, 0, 0, 0, 0, 0, 0, 0, 0, 5, 0, 0, 0,
   78, 97, 109, 101, 0, 0, 0, 0, 0, 0, 0, 0, 0, 0, 0, 0, 0, 0, 0, 0, 0, 0, 0, 0, 0, 0, 0, 0, 6, 0,
   0, 0, 78, 97, 109, 101, 0, 0, 0, 0, 0, 0, 0, 0, 0, 0, 0, 0, 0, 0, 0, 0, 0, 0, 0, 0, 0, 0, 0, 0,
   7, 0, 0, 0, 78, 97, 109, 101, 0, 0, 0, 0, 0, 0, 0, 0, 0, 0, 0, 0, 0, 0, 0, 0, 0, 0, 0, 0, 0, 0,
   0, 0, 8, 0, 0, 0, 78, 97, 109, 101, 0, 0, 0, 0, 0, 0, 0, 0, 0, 0, 0, 0, 0, 0, 0, 0, 0, 0, 0, 0,
   0, 0, 0, 0, 9, 0, 0, 0, 78, 97, 109, 101, 0, 0, 0, 0, 0, 0, 0, 0, 0, 0, 0, 0, 0, 0, 0, 0, 0, 0,
   0, 0, 0, 0, 0, 0, 10, 0, 0, 0, 78, 97, 109, 101, 0, 0, 0, 0, 0, 0, 0, 0, 0, 0, 0, 0, 0, 0, 0, 0,
   0, 0, 0, 0, 0, 0, 0, 0, 11, 0, 0, 0, 78, 97, 109, 101, 0, 0, 0, 0, 0, 0, 0, 0, 0, 0, 0, 0, 0, 0,
   0, 0, 0, 0, 0, 0, 0, 0, 0, 0, 12, 0, 0, 0, 78, 97, 109, 101, 0, 0, 0, 0, 0, 0, 0, 0, 0, 0, 0, 0,
   0, 0, 0, 0, 0, 0, 0, 0, 0, 0, 0, 0, 13, 0, 0, 0, 78, 97, 109, 101, 0, 0, 0, 0, 0, 0, 0, 0, 0, 0,
   0, 0, 0, 0, 0, 0, 0, 0, 0, 0, 0, 0, 0, 0, 14, 0, 0, 0, 78, 97, 109, 101, 0, 0, 0, 0, 0, 0, 0, 0,
   0, 0, 0, 0, 0, 0, 0, 0, 0, 0, 0, 0, 0, 0, 0, 0, 15, 0, 0, 0, 78, 97, 109, 101, 0, 0, 0, 0, 0, 0,
   0, 0, 0, 0, 0, 0, 0, 0, 0, 0, 0, 0, 0, 0, 0, 0, 0, 0, 16, 0, 0, 0, 78, 97, 109, 101, 0, 0, 0, 0,
   0, 0, 0, 0, 0, 0, 0, 0, 0, 0, 0, 0, 0, 0, 0, 0, 0, 0, 0, 0, 17, 0, 0, 0, 78, 97, 109, 101, 0, 0,
   0, 0, 0, 0, 0, 0, 0, 0, 0, 0, 0, 0, 0, 0, 0, 0, 0, 0, 0, 0, 0, 0, 18, 0, 0, 0, 78, 97, 109, 101,
   0, 0, 0, 0, 0, 0, 0, 0, 0, 0, 0, 0, 0, 0, 0, 0, 0, 0, 0, 0, 0, 0, 0, 0, 19, 0, 0, 0, 78, 97,
   109, 101, 0, 0, 0, 0, 0, 0, 0, 0, 0, 0, 0, 0, 0, 0, 0, 0, 0, 0, 0, 0, 0, 0, 0, 0, 20, 0, 0, 0,
   78, 97, 109, 101, 0, 0, 0, 0, 0, 0, 0, 0, 0, 0, 0, 0, 0, 0, 0, 0, 0, 0, 0, 0, 0, 0, 0, 0, 21, 0,
   0, 0, 78, 97, 109, 101, 0, 0, 0, 0, 0, 0, 0, 0, 0, 0, 0, 0, 0, 0, 0, 0, 0, 0, 0, 0, 0, 0, 0, 0,
   22, 0, 0, 0, 78, 97, 109, 101, 0, 0, 0, 0, 0, 0, 0, 0, 0, 0, 0, 0, 0, 0, 0, 0, 0, 0, 0, 0, 0, 0,
   0, 0, 23, 0, 0, 0, 78, 97, 109, 101, 0, 0, 0, 0, 0, 0, 0, 0, 0, 0, 0, 0, 0, 0, 0, 0, 0, 0, 0, 0,
   0, 0, 0, 0, 24, 0, 0, 0, 78, 97, 109, 101, 0, 0, 0, 0, 0, 0, 0, 0, 0, 0, 0, 0, 0, 0, 0, 0, 0, 0,
   0, 0, 0, 0, 0, 0, 25, 0, 0, 0, 78, 97, 109, 101, 0, 0, 0, 0, 0, 0, 0, 0, 0, 0, 0, 0, 0, 0, 0, 0,
   0, 0, 0, 0, 0, 0, 0, 0, 26, 0, 0, 0, 78, 97, 109, 101, 0, 0, 0, 0, 0, 0, 0, 0, 0, 0, 0, 0, 0, 0,
   0, 0, 0, 0, 0, 0, 0, 0, 0, 0, 0, 0, 0, 0, 0, 0, 0, 0, 0, 0, 0, 0, 0, 0, 0, 0, 0, 0, 0, 0,
   0, 0, 0, 0, 0, 0, 0, 0, 0, 0, 0, 0, 0, 0, 0, 0, 0, 0, 0, 0, 0, 0, 0, 0, 0, 0, 0, 0, 0, 0,
   0, 0, 0, 0, 0, 0, 0, 0, 0, 0, 0, 0, 0, 0, 0, 0, 0, 0, 0, 0]

/-- All-zero payload on which recovery finds nothing. -/
def zeroPayload : List Nat := List.replicate 124 0

/-- Binary region made of 21 consecutive magic pairs and zero padding. -/
def magicRich : List Nat := (List.replicate 21 ([31, 139] : List Nat)).flatten ++ List.replicate 20 0

/-- Container whose only magic pair starts 10 bytes before the end. -/
def tailMagic : List Nat := [0, 0, 31, 139, 0, 0, 0, 0, 0, 0, 0, 0]

/-- Ten zero bytes: the failing input for the find_compressed_blocks loop. -/
def tenZeros : List Nat := List.replicate 10 0

/-- A ten-byte buffer starting with the gzip magic. -/
def gzHeader : List Nat := [31, 139, 0, 0, 0, 0, 0, 0, 0, 0]

/-! ## Helper lemmas about the segment scanner -/

/-- With fuel exceeding the remaining byte count, the uncapped scan loop
computes exactly the magic positions p with start ≤ p < file_size - 10: the
windows tile that interval without gaps or overlaps. -/
theorem scanGoF_spec (data : List Nat) : ∀ (fuel offset : Nat), data.length - offset < fuel →
    scanGoF fuel data offset =
      some ((List.range' offset (data.length - 10 - offset)).filter (isMagic data)) := by
  intro fuel
  induction fuel with
  | zero => intro offset h; omega
  | succ n ih =>
    intro offset h
    rw [scanGoF]
    by_cases hg : offset + 10 < data.length
    · rw [if_pos hg]
      have hbr : 11 ≤ min 4096 (data.length - offset) := by omega
      have hble : min 4096 (data.length - offset) ≤ data.length - offset := by omega
      have h2 : data.length - (offset + (min 4096 (data.length - offset) - 10)) < n := by omega
      rw [ih (offset + (min 4096 (data.length - offset) - 10)) h2]
      have hsplit :
          List.range' offset (min 4096 (data.length - offset) - 10) ++
            List.range' (offset + (min 4096 (data.length - offset) - 10))
              (data.length - 10 - (offset + (min 4096 (data.length - offset) - 10)))
          = List.range' offset (data.length - 10 - offset) := by
        rw [List.range'_append_1]
        congr 1
        omega
      rw [← hsplit, List.filter_append]
    · rw [if_neg hg]
      have hz : data.length - 10 - offset = 0 := by omega
      rw [hz]
      rfl

/-- Membership characterisation of the uncapped scan plus strict sortedness. -/
theorem scanOffsets_spec (data : List Nat) (start : Nat) :
    scanOffsets data start =
      (List.range' start (data.length - 10 - start)).filter (isMagic data) := by
  unfold scanOffsets
  rw [scanGoF_spec data (data.length + 1) start (by omega)]
  rfl

/-- Inner capped window loop: on a window whose magic hits are H, starting at
count c below cap, the loop emits the first cap - c hits, raises the count by
min H.length (cap - c), and reports a stop exactly when cap - c ≤ H.length. -/
theorem scanCapInner_spec (data : List Nat) : ∀ (ps : List Nat) (c cap : Nat), c < cap →
    scanCapInner data ps c cap =
      ((ps.filter (isMagic data)).take (cap - c),
       c + min (ps.filter (isMagic data)).length (cap - c),
       decide (cap - c ≤ (ps.filter (isMagic data)).length)) := by
  intro ps
  induction ps with
  | nil =>
    intro c cap h
    simp only [scanCapInner, List.filter_nil, List.take_nil, List.length_nil, Prod.mk.injEq]
    refine ⟨trivial, by omega, ?_⟩
    rw [decide_eq_false (by omega)]
  | cons p rest ih =>
    intro c cap h
    rw [scanCapInner]
    by_cases hm : isMagic data p
    · rw [if_pos hm]
      rw [List.filter_cons_of_pos hm]
      by_cases hcap : cap ≤ c + 1
      · rw [if_pos hcap]
        have h1 : cap - c = 1 := by omega
        rw [h1]
        simp only [List.take_succ_cons, List.take_zero, List.length_cons, Prod.mk.injEq]
        refine ⟨trivial, by omega, ?_⟩
        rw [decide_eq_true (by omega)]
      · rw [if_neg hcap]
        rw [ih (c + 1) cap (by omega)]
        have h1 : cap - c = (cap - (c + 1)) + 1 := by omega
        simp only [h1, List.take_succ_cons, List.length_cons, Prod.mk.injEq]
        refine ⟨trivial, by omega, ?_⟩
        rw [decide_eq_decide]
        omega
    · rw [if_neg hm]
      rw [List.filter_cons_of_neg hm]
      exact ih c cap h

/-- With the same fuel, the capped scan emits exactly the first cap - c offsets
of the uncapped scan. -/
theorem scanCapGoF_take (data : List Nat) : ∀ (fuel offset c cap : Nat) (t : List Nat),
    c < cap → scanGoF fuel data offset = some t →
    scanCapGoF fuel data offset c cap = some (t.take (cap - c)) := by
  intro fuel
  induction fuel with
  | zero =>
    intro offset c cap t hc h
    exact absurd h (by simp [scanGoF])
  | succ n ih =>
    intro offset c cap t hc h
    rw [scanGoF] at h
    rw [scanCapGoF]
    by_cases hg : offset + 10 < data.length
    · rw [if_pos hg] at h ⊢
      cases hrec : scanGoF n data (offset + (min 4096 (data.length - offset) - 10)) with
      | none => rw [hrec] at h; exact absurd h (by simp)
      | some t2 =>
        rw [hrec] at h
        simp only [Option.some.injEq] at h
        subst h
        rw [scanCapInner_spec data _ c cap hc]
        set W := (List.range' offset (min 4096 (data.length - offset) - 10)).filter
          (isMagic data) with hWdef
        by_cases hstop : cap - c ≤ W.length
        · rw [decide_eq_true hstop]
          dsimp only
          rw [if_pos rfl]
          rw [List.take_append_eq_append_take]
          rw [(by omega : cap - c - W.length = 0)]
          simp
        · rw [decide_eq_false hstop]
          dsimp only
          rw [if_neg Bool.false_ne_true]
          rw [(by omega : c + min W.length (cap - c) = c + W.length)]
          rw [ih _ _ cap t2 (by omega) hrec]
          dsimp only
          rw [List.take_append_eq_append_take, List.take_of_length_le (by omega)]
          rw [(by omega : cap - (c + W.length) = cap - c - W.length)]
    · rw [if_neg hg] at h ⊢
      simp only [Option.some.injEq] at h
      subst h
      simp

/-! ## Helper lemmas about the record walk -/

/-- A successful name probe returns the string read at the found position, and
that string passed the length filter. -/
theorem tryName_some (data : List Nat) : ∀ (ps : List Nat) (j : Nat) (nm : List Nat),
    tryName data ps = some (j, nm) → nm = read_string data j 50 ∧ 3 < nm.length ∧ nm.length < 40 := by
  intro ps
  induction ps with
  | nil => intro j nm h; exact absurd h (by simp [tryName])
  | cons q rest ih =>
    intro j nm h
    rw [tryName] at h
    by_cases h1 : 65 ≤ data.getD q 0 ∧ data.getD q 0 ≤ 122
    · rw [if_pos h1] at h
      by_cases h2 : 3 < (read_string data q 50).length ∧ (read_string data q 50).length < 40
      · rw [if_pos h2] at h
        simp only [Option.some.injEq, Prod.mk.injEq] at h
        obtain ⟨hj, hnm⟩ := h
        subst hj
        subst hnm
        exact ⟨rfl, h2⟩
      · rw [if_neg h2] at h
        exact ih j nm h
    · rw [if_neg h1] at h
      exact ih j nm h

/-- An accepted candidate passed both the uid filter and the name filter. -/
theorem candidate_some (data : List Nat) (current : Nat) (j : Nat) (nm : List Nat)
    (h : candidate data current = some (j, nm)) :
    (0 < read_uint32_le data current ∧ read_uint32_le data current < 65536) ∧
    3 < nm.length ∧ nm.length < 40 := by
  unfold candidate at h
  by_cases h1 : 0 < read_uint32_le data current ∧ read_uint32_le data current < 65536
  · rw [if_pos h1] at h
    exact ⟨h1, (tryName_some data _ j nm h).2⟩
  · rw [if_neg h1] at h
    exact absurd h (by simp)

/-- Every component the record walk emits passed the uid and name filters. -/
theorem walkF_bounds (data : List Nat) : ∀ (fuel current count : Nat) (comp : Component),
    comp ∈ walkF fuel data current count →
    0 < comp.uid ∧ comp.uid < 65536 ∧ 3 < comp.name.length ∧ comp.name.length < 40 := by
  intro fuel
  induction fuel with
  | zero => intro current count comp h; exact absurd h (by simp [walkF])
  | succ n ih =>
    intro current count comp h
    rw [walkF] at h
    by_cases hg : current + 100 < data.length ∧ count < 10000
    · rw [if_pos hg] at h
      cases hcand : candidate data current with
      | none =>
        simp only [hcand] at h
        by_cases h50 : 50 ≤ count
        · rw [if_pos h50] at h
          exact absurd h (by simp)
        · rw [if_neg h50] at h
          exact ih _ _ comp h
      | some pr =>
        obtain ⟨j, nm⟩ := pr
        simp only [hcand] at h
        have hc := candidate_some data current j nm hcand
        by_cases h50 : 50 ≤ count + 1
        · rw [if_pos h50] at h
          simp only [List.mem_singleton] at h
          subst h
          exact ⟨hc.1.1, hc.1.2, hc.2⟩
        · rw [if_neg h50] at h
          rcases List.mem_cons.mp h with h | h
          · subst h
            exact ⟨hc.1.1, hc.1.2, hc.2⟩
          · exact ih _ _ comp h
    · rw [if_neg hg] at h
      exact absurd h (by simp)

/-- Count-shift lemma for the record walk: starting the same walk with a larger
initial global count c (at most 49) emits exactly the first 50 - c components
of the walk started at count d, for any d ≤ c.  The walks visit the same
positions and emit the same components until the cumulative count reaches 50. -/
theorem walkF_take (data : List Nat) : ∀ (fuel current c d : Nat), d ≤ c → c ≤ 49 →
    walkF fuel data current c = (walkF fuel data current d).take (50 - c) := by
  intro fuel
  induction fuel with
  | zero => intro current c d _ _; simp [walkF]
  | succ n ih =>
    intro current c d hdc hc
    rw [walkF, walkF]
    by_cases hg : current + 100 < data.length
    · rw [if_pos (⟨hg, by omega⟩ : current + 100 < data.length ∧ c < 10000),
         if_pos (⟨hg, by omega⟩ : current + 100 < data.length ∧ d < 10000)]
      cases hcand : candidate data current with
      | none =>
        simp only [hcand]
        rw [if_neg (by omega : ¬ 50 ≤ c), if_neg (by omega : ¬ 50 ≤ d)]
        exact ih (current + 4) c d hdc hc
      | some pr =>
        obtain ⟨j, nm⟩ := pr
        simp only [hcand]
        by_cases h50 : 50 ≤ c + 1
        · rw [if_pos h50]
          have h1 : 50 - c = 1 := by omega
          by_cases h50d : 50 ≤ d + 1
          · rw [if_pos h50d, h1]
            rfl
          · rw [if_neg h50d, h1]
            rfl
        · rw [if_neg h50, if_neg (by omega : ¬ 50 ≤ d + 1)]
          rw [(by omega : 50 - c = (50 - (c + 1)) + 1), List.take_succ_cons]
          rw [← ih (j + nm.length + 20 + 4) (c + 1) (d + 1) (by omega) (by omega)]
    · rw [if_neg (by simp [hg] : ¬ (current + 100 < data.length ∧ c < 10000)),
          if_neg (by simp [hg] : ¬ (current + 100 < data.length ∧ d < 10000))]
      simp

/-! ## Claim theorems -/

/-- C1: on the example payload of the spec, whose Comps marker sits at payload
offset 0, the composed recovery of main returns no components at all, because
the sentinel test comps_offset > 0 treats a marker found at offset 0 as
absent; parse_comps_database itself, invoked at offset 0, does recover the one
component with uid 5 and name XValve, so the loss is caused solely by the
sentinel test. -/
theorem comps_marker_at_zero_drops_all :
    recover_components examplePayload = [] ∧
    parse_comps_database examplePayload 0 0 = [⟨5, [88, 86, 97, 108, 118, 101]⟩] := by
  constructor
  · decide
  · decide

/-- C3 (amended): the capped scan of main visits exactly the first 20 offsets
the uncapped scan would visit: the block counter is incremented on every magic
hit, before and regardless of the decode outcome, so failed decodes count
toward the stop bound. -/
theorem scanCapped_eq_take (data : List Nat) (start : Nat) :
    scanCapped data start = (scanOffsets data start).take 20 := by
  unfold scanCapped scanOffsets
  rw [scanGoF_spec data (data.length + 1) start (by omega),
      scanCapGoF_take data (data.length + 1) start 0 20 _ (by omega)
        (scanGoF_spec data (data.length + 1) start (by omega))]
  rfl

/-- C3 counterexample: on a binary region holding 21 magic pairs, the capped
scan stops after visiting 20 candidate offsets and never reaches the offset 40
even though the region is not exhausted there; when every decode fails (the
all-false decode oracle) the number of successfully decoded segments is 0, yet
scanning still stopped, refuting the claim that only successful decodes count
toward the stop bound. -/
theorem scan_stops_without_successful_decode :
    (scanCapped magicRich 0).length = 20 ∧ ¬ (40 ∈ scanCapped magicRich 0) ∧
    isMagic magicRich 40 = true ∧ 40 + 10 < magicRich.length ∧
    segmentsOf (fun _ => false) (scanCapped magicRich 0) = [] := by decide

/-- C4 (amended): the uncapped scan visits an offset p exactly when p is at
least the start offset, carries the magic pair, and satisfies
p + 10 < file_size (positions in the last 10 bytes are never examined); the
visited offsets are strictly increasing, hence visited at most once. -/
theorem scan_visits_iff (data : List Nat) (start p : Nat) :
    (p ∈ scanOffsets data start ↔ start ≤ p ∧ p + 10 < data.length ∧ isMagic data p = true) ∧
    (scanOffsets data start).Pairwise (· < ·) := by
  rw [scanOffsets_spec]
  constructor
  · rw [List.mem_filter, List.mem_range'_1]
    constructor
    · rintro ⟨⟨h1, h2⟩, h3⟩
      exact ⟨h1, by omega, h3⟩
    · rintro ⟨h1, h2, h3⟩
      exact ⟨⟨h1, by omega⟩, h3⟩
  · exact (List.pairwise_lt_range' _ _).filter _

/-- C4 counterexample: a container whose only magic pair starts 10 bytes
before the end; the scan visits no offset at all, so no offset is reported for
that pair, refuting the claim that every embedded magic offset is visited. -/
theorem scan_misses_tail_magic :
    isMagic tailMagic 2 = true ∧ 2 + 2 ≤ tailMagic.length ∧
    scanOffsets tailMagic 0 = [] ∧ ¬ (2 ∈ scanOffsets tailMagic 0) := by decide

/-- C5 (amended): a payload with a zero byte among its first 50 bytes is
classified Binary; zero bytes at position 50 or later are never examined. -/
theorem zero_in_head_is_binary (p : List Nat) (h : (0 : Nat) ∈ p.take 50) :
    classify_text p = PayloadClass.Binary := by
  unfold classify_text
  rw [if_neg]
  rintro ⟨hall, -⟩
  have h0 := List.all_eq_true.mp hall 0 h
  simp [isPrintableByte] at h0

/-- C5 witness: the one-byte zero payload is classified Binary. -/
theorem zero_in_head_is_binary_w :
    (0 : Nat) ∈ ([0] : List Nat).take 50 ∧ classify_text [0] = PayloadClass.Binary :=
  ⟨by decide, zero_in_head_is_binary [0] (by decide)⟩

/-- C5 counterexample: fifty printable bytes followed by a zero byte are
classified Text although the payload contains the byte 0x00, refuting the
claim for zero bytes at any position. -/
theorem late_zero_classified_text :
    (0 : Nat) ∈ List.replicate 50 65 ++ [0] ∧
    classify_text (List.replicate 50 65 ++ [0]) = PayloadClass.Text := by decide

/-- C6 (amended): a payload of length strictly greater than 5 whose first five
bytes are the xml literal is tagged Xml. -/
theorem xml_tag_needs_length_gt5 (p : List Nat) (h1 : 5 < p.length) (h2 : p.take 5 = xmlLit) :
    classify_xml p = true := by
  unfold classify_xml
  rw [decide_eq_true h1, decide_eq_true h2]
  rfl

/-- C6 witness: a six-byte payload starting with the xml literal is tagged. -/
theorem xml_tag_needs_length_gt5_w :
    5 < ([60, 63, 120, 109, 108, 32] : List Nat).length ∧
    ([60, 63, 120, 109, 108, 32] : List Nat).take 5 = xmlLit ∧
    classify_xml [60, 63, 120, 109, 108, 32] = true :=
  ⟨by decide, by decide, xml_tag_needs_length_gt5 _ (by decide) (by decide)⟩

/-- C6 counterexample: the exactly-five-byte payload consisting of the xml
literal itself is not tagged Xml, because the source requires
decomp_size > 5 strictly; this refutes the claim for length exactly 5. -/
theorem xml_exact5_not_tagged :
    xmlLit.length = 5 ∧ xmlLit.take 5 = xmlLit ∧ classify_xml xmlLit = false := by decide

/-- C7: the find_compressed_blocks loop of acd_parser.c does not terminate on
a ten-byte all-zero container scanned from offset 0: its guard
offset < file_size - 2 allows the state with 10 remaining bytes, where
bytes_read = 10 makes the advance bytes_read - 10 zero, so the loop state
repeats forever (no fuel completes it); by contrast the extractor scan of
acd_extractor.c main, whose guard is offset < file_size - 10, completes within
file_size + 1 iterations on every container and start offset. -/
theorem parser_scan_diverges_extractor_scan_halts :
    (∀ fuel : Nat, fcbGoF fuel tenZeros 0 0 = none) ∧
    (∀ (data : List Nat) (start : Nat), (scanGoF (data.length + 1) data start).isSome = true) := by
  constructor
  · intro fuel
    induction fuel with
    | zero => rfl
    | succ n ih =>
      have hstep : fcbGoF (n + 1) tenZeros 0 0 = fcbGoF n tenZeros 0 0 := rfl
      rw [hstep]
      exact ih
  · intro data start
    rw [scanGoF_spec data (data.length + 1) start (by omega)]
    rfl

/-- C8 (amended): component recovery is a pure function of the payload and of
the global component count at entry; invoking it with a prior count c at most
49 emits exactly the first 50 - c components of the run started on the empty
accumulator, so a retry inside one process reproduces the first run only while
the cumulative count stays within the 50 cap. -/
theorem parse_retry_truncates (data : List Nat) (startOff c : Nat) (hc : c ≤ 49) :
    parse_comps_database data startOff c = (parse_comps_database data startOff 0).take (50 - c) := by
  unfold parse_comps_database
  by_cases hd : 0 < (findMarkers data (readFieldsF 21 data (startOff + 6) 0)).1
  · rw [if_pos hd, if_pos hd]
    exact walkF_take data _ _ c 0 (by omega) hc
  · rw [if_neg hd, if_neg hd]
    simp

/-- C8 witness: instantiation of the truncation theorem on the all-zero
payload with prior count 7. -/
theorem parse_retry_truncates_w :
    (7 : Nat) ≤ 49 ∧
    parse_comps_database zeroPayload 0 7 = (parse_comps_database zeroPayload 0 0).take 43 :=
  ⟨by decide, parse_retry_truncates zeroPayload 0 7 (by decide)⟩

/-- C9: every component emitted by parse_comps_database, for every payload,
start offset and entry count, has a nonzero uid below 65536 and a name whose
length lies strictly between 3 and 40. -/
theorem component_bounds (data : List Nat) (startOff count0 : Nat) (comp : Component)
    (h : comp ∈ parse_comps_database data startOff count0) :
    0 < comp.uid ∧ comp.uid < 65536 ∧ 3 < comp.name.length ∧ comp.name.length < 40 := by
  unfold parse_comps_database at h
  by_cases hd : 0 < (findMarkers data (readFieldsF 21 data (startOff + 6) 0)).1
  · rw [if_pos hd] at h
    exact walkF_bounds data _ _ _ comp h
  · rw [if_neg hd] at h
    exact absurd h (by simp)

/-- C9 witness: the component recovered from the example payload satisfies the
bounds. -/
theorem component_bounds_w :
    (⟨5, [88, 86, 97, 108, 118, 101]⟩ : Component) ∈ parse_comps_database examplePayload 0 0 ∧
    (0 < (⟨5, [88, 86, 97, 108, 118, 101]⟩ : Component).uid ∧
     (⟨5, [88, 86, 97, 108, 118, 101]⟩ : Component).uid < 65536 ∧
     3 < (⟨5, [88, 86, 97, 108, 118, 101]⟩ : Component).name.length ∧
     (⟨5, [88, 86, 97, 108, 118, 101]⟩ : Component).name.length < 40) := by
  have hm : (⟨5, [88, 86, 97, 108, 118, 101]⟩ : Component) ∈
      parse_comps_database examplePayload 0 0 := by decide
  exact ⟨hm, component_bounds examplePayload 0 0 _ hm⟩

/-- C10: the decoder reports success (return value 0) exactly when the total
number of decompressed bytes is positive, on every path; in particular a call
whose inflate status is an error but which produced output returns 0 with no
artifact written, indistinguishable by return value from a successful call
that persisted its artifact. -/
theorem decoder_ret_iff_output :
    (∀ (data : List Nat) (offset : Nat) (initOk : Bool) (infl : InflateOut),
       ((extract_gzip_block data offset initOk infl).ret = 0 ↔
        0 < (extract_gzip_block data offset initOk infl).totalOut)) ∧
    (extract_gzip_block gzHeader 0 true ⟨1, [65]⟩).ret = 0 ∧
    (extract_gzip_block gzHeader 0 true ⟨1, [65]⟩).binWritten = true ∧
    (extract_gzip_block gzHeader 0 true ⟨-3, [65]⟩).ret = 0 ∧
    (extract_gzip_block gzHeader 0 true ⟨-3, [65]⟩).binWritten = false := by
  refine ⟨?_, by decide, by decide, by decide, by decide⟩
  intro data offset initOk infl
  unfold extract_gzip_block
  split_ifs with h1 h2 h3 h4 h5 h6 <;> simp_all

/-- Reading one full line: when l ends in its only LF and fits in the buffer,
fgets returns exactly l, whatever follows. -/
theorem fgetsChunk_line : ∀ (l : List Nat) (t : List Nat) (m : Nat), l.length ≤ m →
    l.getLast? = some 10 → (∀ b ∈ l.dropLast, b ≠ 10) → fgetsChunk m (l ++ t) = l := by
  intro l
  induction l with
  | nil => intro t m _ hlast _; exact absurd hlast (by simp)
  | cons b rest ih =>
    intro t m hlen hlast hno10
    cases rest with
    | nil =>
      simp only [List.getLast?_singleton, Option.some.injEq] at hlast
      subst hlast
      cases m with
      | zero => simp at hlen
      | succ k => simp [fgetsChunk]
    | cons c rest2 =>
      have hb : b ≠ 10 := hno10 b (by simp)
      cases m with
      | zero => simp at hlen
      | succ k =>
        rw [List.cons_append, fgetsChunk, if_neg hb]
        rw [ih t k (by simpa using hlen) (by simpa using hlast)
          (fun x hx => hno10 x (by simp at hx ⊢; exact Or.inr hx))]

/-- A line of text bytes passes the text test of the parser splitter. -/
theorem lineIsTextP_of_text : ∀ (l : List Nat),
    (∀ b ∈ l, 32 ≤ b ∨ b = 13 ∨ b = 10 ∨ b = 9) → lineIsTextP l = true := by
  intro l
  induction l with
  | nil => intro _; rfl
  | cons b rest ih =>
    intro h
    rw [lineIsTextP]
    by_cases h1 : b = 0 ∨ b = 10
    · rw [if_pos h1]
    · rw [if_neg h1]
      have hb := h b (by simp)
      rw [if_neg (by omega)]
      exact ih (fun x hx => h x (by simp [hx]))

/-- A line of text bytes is not flagged binary by the extractor splitter. -/
theorem lineIsBinary_of_text : ∀ (l : List Nat),
    (∀ b ∈ l, 32 ≤ b ∨ b = 13 ∨ b = 10 ∨ b = 9) → lineIsBinary l = false := by
  intro l
  induction l with
  | nil => intro _; rfl
  | cons b rest ih =>
    intro h
    rw [lineIsBinary]
    have hb := h b (by simp)
    by_cases h0 : b = 0
    · rw [if_pos h0]
    · rw [if_neg h0, if_neg (by omega)]
      exact ih (fun x hx => h x (by simp [hx]))

/-- A zero-free line holding a byte below 0x20 other than CR, LF, tab is
flagged binary by the extractor splitter. -/
theorem lineIsBinary_of_bad : ∀ (l : List Nat), (∀ b ∈ l, b ≠ 0) →
    (∃ b ∈ l, b < 32 ∧ b ≠ 13 ∧ b ≠ 10 ∧ b ≠ 9) → lineIsBinary l = true := by
  intro l
  induction l with
  | nil => intro _ hex; simp at hex
  | cons b rest ih =>
    intro h0 hex
    rw [lineIsBinary, if_neg (h0 b (by simp))]
    by_cases hb : b < 32 ∧ b ≠ 13 ∧ b ≠ 10 ∧ b ≠ 9
    · rw [if_pos hb]
    · rw [if_neg hb]
      apply ih (fun x hx => h0 x (by simp [hx]))
      rcases hex with ⟨x, hx, hxprop⟩
      rcases List.mem_cons.mp hx with rfl | hx2
      · exact absurd hxprop hb
      · exact ⟨x, hx2, hxprop⟩

/-- A zero-free line whose only possible LF is its last byte, holding a byte
below 0x20 other than CR, LF, tab, fails the text test of the parser
splitter: the scan stops only at a 0x00 byte (absent) or at an LF, and the
bad byte sits strictly before any LF. -/
theorem lineIsTextP_of_bad : ∀ (l : List Nat), (∀ b ∈ l, b ≠ 0) →
    (∀ b ∈ l.dropLast, b ≠ 10) →
    (∃ b ∈ l, b < 32 ∧ b ≠ 13 ∧ b ≠ 10 ∧ b ≠ 9) → lineIsTextP l = false := by
  intro l
  induction l with
  | nil => intro _ _ hex; simp at hex
  | cons b rest ih =>
    intro h0 hno10 hex
    cases rest with
    | nil =>
      rcases hex with ⟨x, hx, hxprop⟩
      simp only [List.mem_singleton] at hx
      subst hx
      rw [lineIsTextP,
        if_neg (by
          rintro (h | h)
          · exact h0 x (by simp) h
          · exact hxprop.2.2.1 h),
        if_pos hxprop]
    | cons c rest2 =>
      have hb10 : b ≠ 10 := hno10 b (by simp)
      have hb0 : b ≠ 0 := h0 b (by simp)
      rw [lineIsTextP, if_neg (by tauto)]
      by_cases hb : b < 32 ∧ b ≠ 13 ∧ b ≠ 10 ∧ b ≠ 9
      · rw [if_pos hb]
      · rw [if_neg hb]
        apply ih (fun x hx => h0 x (by simp [hx]))
          (fun x hx => hno10 x (by simp at hx ⊢; exact Or.inr hx))
        rcases hex with ⟨x, hx, hxprop⟩
        rcases List.mem_cons.mp hx with rfl | hx2
        · exact absurd hxprop hb
        · exact ⟨x, hx2, hxprop⟩

/-- strlen of a buffer without zero bytes is its length. -/
theorem strlenM_of_no_zero : ∀ (l : List Nat), (∀ b ∈ l, b ≠ 0) → strlenM l = l.length := by
  intro l
  induction l with
  | nil => intro _; rfl
  | cons b rest ih =>
    intro h
    unfold strlenM at ih ⊢
    rw [List.takeWhile_cons, if_pos (by simpa using h b (by simp))]
    rw [List.length_cons, List.length_cons, ih (fun x hx => h x (by simp [hx]))]

/-- One fgets call on a nonempty text region that ends in LF returns a
nonempty chunk c that is a prefix of the region, and the remainder is again
empty or LF-terminated: the chunk stops at the first LF of the region or at
the buffer bound, both inside the region. -/
theorem fgetsChunk_prefix : ∀ (S X : List Nat) (m : Nat), 1 ≤ m → S.getLast? = some 10 →
    ∃ c s2, S = c ++ s2 ∧ c ≠ [] ∧ fgetsChunk m (S ++ X) = c ∧
      (s2 = [] ∨ s2.getLast? = some 10) := by
  intro S
  induction S with
  | nil => intro X m _ hlast; exact absurd hlast (by simp)
  | cons b S2 ih =>
    intro X m hm hlast
    obtain ⟨k, rfl⟩ : ∃ k, m = k + 1 := ⟨m - 1, by omega⟩
    by_cases hb : b = 10
    · subst hb
      refine ⟨[10], S2, rfl, by simp, ?_, ?_⟩
      · rw [List.cons_append, fgetsChunk, if_pos rfl]
      · cases S2 with
        | nil => exact Or.inl rfl
        | cons c2 r2 => exact Or.inr (by simpa using hlast)
    · have hS2 : S2 ≠ [] := by
        intro he
        subst he
        simp only [List.getLast?_singleton, Option.some.injEq] at hlast
        exact hb hlast
      have hlast2 : S2.getLast? = some 10 := by
        cases S2 with
        | nil => exact absurd rfl hS2
        | cons c2 r2 => simpa using hlast
      cases k with
      | zero =>
        refine ⟨[b], S2, rfl, by simp, ?_, Or.inr hlast2⟩
        rw [List.cons_append, fgetsChunk, if_neg hb]
        simp [fgetsChunk]
      | succ k2 =>
        obtain ⟨c, s2, hSeq, hcne, hchunk, hs2⟩ := ih X (k2 + 1) (by omega) hlast2
        refine ⟨b :: c, s2, by rw [hSeq, List.cons_append], by simp, ?_, hs2⟩
        rw [List.cons_append, fgetsChunk, if_neg hb, hchunk]

/-- One fgets call at end of file: when the remaining bytes fit in the buffer
and contain no LF before the last byte, fgets returns all of them, whether or
not the final byte is an LF. -/
theorem fgetsChunk_all : ∀ (B : List Nat) (m : Nat), B.length ≤ m →
    (∀ b ∈ B.dropLast, b ≠ 10) → fgetsChunk m B = B := by
  intro B
  induction B with
  | nil => intro m _ _; cases m <;> rfl
  | cons b B2 ih =>
    intro m hlen hno10
    obtain ⟨k, rfl⟩ : ∃ k, m = k + 1 := ⟨m - 1, by simp at hlen; omega⟩
    cases B2 with
    | nil =>
      by_cases hb : b = 10
      · subst hb
        rw [fgetsChunk, if_pos rfl]
      · rw [fgetsChunk, if_neg hb]
        cases k <;> rfl
    | cons c r2 =>
      have hb : b ≠ 10 := hno10 b (by simp)
      rw [fgetsChunk, if_neg hb]
      rw [ih k (by simp at hlen ⊢; omega)
        (fun x hx => hno10 x (by simp at hx ⊢; exact Or.inr hx))]

/-- The concatenation of LF-terminated lines is empty or ends in LF. -/
theorem flatten_getLast? : ∀ (lines : List (List Nat)),
    (∀ l ∈ lines, l.getLast? = some 10) →
    lines.flatten = [] ∨ lines.flatten.getLast? = some 10 := by
  intro lines
  induction lines with
  | nil => intro _; exact Or.inl rfl
  | cons l ls ih =>
    intro h
    right
    rw [List.flatten_cons, List.getLast?_append]
    rcases ih (fun x hx => h x (by simp [hx])) with h2 | h2
    · rw [h2]
      simp only [List.getLast?_nil, Option.none_or]
      exact h l (by simp)
    · rw [h2]
      rfl

/-- Core induction for the extractor splitter, over the text region S as a
whole: from any position whose remaining data is S followed by the binary
line B, with S all text bytes and empty or LF-terminated, the loop consumes S
chunk by chunk (long lines simply arrive as several printable chunks) and
returns the offset at the start of B.  B needs at most 1023 bytes, no 0x00
byte, no LF before its last byte, a terminating LF or nothing after it, and
one byte below 0x20 other than CR, LF, tab. -/
theorem fbsGoF_text_region (data B rest : List Nat)
    (hB1 : B.length ≤ 1023) (hB3 : ∀ b ∈ B.dropLast, b ≠ 10)
    (hBend : B.getLast? = some 10 ∨ rest = []) (hB0 : ∀ b ∈ B, b ≠ 0)
    (hbad : ∃ b ∈ B, b < 32 ∧ b ≠ 13 ∧ b ≠ 10 ∧ b ≠ 9) :
    ∀ (fuel : Nat) (S : List Nat) (pos : Nat),
      (∀ b ∈ S, 32 ≤ b ∨ b = 13 ∨ b = 10 ∨ b = 9) →
      (S = [] ∨ S.getLast? = some 10) →
      data.drop pos = S ++ B ++ rest → S.length < fuel →
      fbsGoF fuel data pos = pos + S.length := by
  intro fuel
  induction fuel with
  | zero => intro S pos _ _ _ hfuel; omega
  | succ k ih =>
    intro S pos hS hSend hdrop hfuel
    have hBne : B ≠ [] := by
      rcases hbad with ⟨b, hb, _⟩
      intro he
      subst he
      simp at hb
    rcases hSend with rfl | hSlast
    · simp only [List.nil_append] at hdrop
      have hchunk : fgetsChunk 1023 (data.drop pos) = B := by
        rcases hBend with hB2 | hrest
        · rw [hdrop]
          exact fgetsChunk_line B rest 1023 hB1 hB2 hB3
        · subst hrest
          rw [hdrop, List.append_nil]
          exact fgetsChunk_all B 1023 hB1 hB3
      rw [fbsGoF, hchunk, if_neg hBne, if_pos (lineIsBinary_of_bad B hB0 hbad)]
      rw [strlenM_of_no_zero B hB0]
      simp
    · obtain ⟨c, s2, hSeq, hcne, hchunk, hs2end⟩ :=
        fgetsChunk_prefix S (B ++ rest) 1023 (by omega) hSlast
      have hdrop2 : data.drop pos = S ++ (B ++ rest) := by
        rw [hdrop, List.append_assoc]
      rw [fbsGoF, hdrop2, hchunk]
      have hcS : ∀ b ∈ c, b ∈ S := fun b hb => by
        rw [hSeq]
        exact List.mem_append_left _ hb
      rw [if_neg hcne,
          if_neg (by rw [lineIsBinary_of_text c (fun b hb => hS b (hcS b hb))]; simp)]
      have hclen : 0 < c.length := List.length_pos.mpr hcne
      have hSlen : S.length = c.length + s2.length := by
        rw [hSeq, List.length_append]
      have hdrop3 : data.drop (pos + c.length) = s2 ++ B ++ rest := by
        rw [← List.drop_drop, hdrop2, hSeq, List.append_assoc, List.drop_left,
            ← List.append_assoc]
      rw [ih s2 (pos + c.length)
          (fun b hb => hS b (by rw [hSeq]; exact List.mem_append_right _ hb))
          hs2end hdrop3 (by omega)]
      omega

/-- Core induction for the parser splitter, over the text region S. -/
theorem rthGoF_text_region (data B rest : List Nat)
    (hB1 : B.length ≤ 1023) (hB3 : ∀ b ∈ B.dropLast, b ≠ 10)
    (hBend : B.getLast? = some 10 ∨ rest = []) (hB0 : ∀ b ∈ B, b ≠ 0)
    (hbad : ∃ b ∈ B, b < 32 ∧ b ≠ 13 ∧ b ≠ 10 ∧ b ≠ 9) :
    ∀ (fuel : Nat) (S : List Nat) (pos : Nat),
      (∀ b ∈ S, 32 ≤ b ∨ b = 13 ∨ b = 10 ∨ b = 9) →
      (S = [] ∨ S.getLast? = some 10) →
      data.drop pos = S ++ B ++ rest → S.length < fuel →
      rthGoF fuel data pos = pos + S.length := by
  intro fuel
  induction fuel with
  | zero => intro S pos _ _ _ hfuel; omega
  | succ k ih =>
    intro S pos hS hSend hdrop hfuel
    have hBne : B ≠ [] := by
      rcases hbad with ⟨b, hb, _⟩
      intro he
      subst he
      simp at hb
    rcases hSend with rfl | hSlast
    · simp only [List.nil_append] at hdrop
      have hchunk : fgetsChunk 4095 (data.drop pos) = B := by
        rcases hBend with hB2 | hrest
        · rw [hdrop]
          exact fgetsChunk_line B rest 4095 (by omega) hB2 hB3
        · subst hrest
          rw [hdrop, List.append_nil]
          exact fgetsChunk_all B 4095 (by omega) hB3
      rw [rthGoF, hchunk, if_neg hBne,
          if_neg (by rw [lineIsTextP_of_bad B hB0 hB3 hbad]; simp)]
      simp
    · obtain ⟨c, s2, hSeq, hcne, hchunk, hs2end⟩ :=
        fgetsChunk_prefix S (B ++ rest) 4095 (by omega) hSlast
      have hdrop2 : data.drop pos = S ++ (B ++ rest) := by
        rw [hdrop, List.append_assoc]
      rw [rthGoF, hdrop2, hchunk]
      have hcS : ∀ b ∈ c, b ∈ S := fun b hb => by
        rw [hSeq]
        exact List.mem_append_left _ hb
      rw [if_neg hcne, if_pos (lineIsTextP_of_text c (fun b hb => hS b (hcS b hb)))]
      have hclen : 0 < c.length := List.length_pos.mpr hcne
      have hSlen : S.length = c.length + s2.length := by
        rw [hSeq, List.length_append]
      have hdrop3 : data.drop (pos + c.length) = s2 ++ B ++ rest := by
        rw [← List.drop_drop, hdrop2, hSeq, List.append_assoc, List.drop_left,
            ← List.append_assoc]
      rw [ih s2 (pos + c.length)
          (fun b hb => hS b (by rw [hSeq]; exact List.mem_append_right _ hb))
          hs2end hdrop3 (by omega)]
      omega

/-- C2 (amended): for a container made of LF-terminated lines of text bytes,
of any lengths, followed by a line that contains no zero byte, fits in the
1024-byte line buffer, has no LF before its end, ends in LF or ends the
container, and holds some byte below 0x20 other than CR, LF, tab, both
splitters return the offset of the first byte of that line.  The zero-free
requirement is forced by the C-string scans, which stop at a 0x00 byte
(detection) and by strlen in the extractor offset computation. -/
theorem preamble_splitter_on_binary_line (lines : List (List Nat)) (B rest : List Nat)
    (hl : ∀ l ∈ lines, l.getLast? = some 10 ∧ ∀ b ∈ l, 32 ≤ b ∨ b = 13 ∨ b = 10 ∨ b = 9)
    (hB1 : B.length ≤ 1023) (hB3 : ∀ b ∈ B.dropLast, b ≠ 10)
    (hBend : B.getLast? = some 10 ∨ rest = []) (hB0 : ∀ b ∈ B, b ≠ 0)
    (hbad : ∃ b ∈ B, b < 32 ∧ b ≠ 13 ∧ b ≠ 10 ∧ b ≠ 9) :
    findBinaryStart (lines.flatten ++ B ++ rest) = lines.flatten.length ∧
    read_text_header (lines.flatten ++ B ++ rest) = lines.flatten.length := by
  have htext : ∀ b ∈ lines.flatten, 32 ≤ b ∨ b = 13 ∨ b = 10 ∨ b = 9 := by
    intro b hb
    rw [List.mem_flatten] at hb
    obtain ⟨l, hlm, hbl⟩ := hb
    exact (hl l hlm).2 b hbl
  have hend := flatten_getLast? lines (fun l hx => (hl l hx).1)
  have hfuel : lines.flatten.length < (lines.flatten ++ B ++ rest).length + 1 := by
    rw [List.length_append, List.length_append]
    omega
  constructor
  · unfold findBinaryStart
    rw [fbsGoF_text_region (lines.flatten ++ B ++ rest) B rest hB1 hB3 hBend hB0 hbad
        ((lines.flatten ++ B ++ rest).length + 1) lines.flatten 0 htext hend (by simp) hfuel]
    omega
  · unfold read_text_header
    rw [rthGoF_text_region (lines.flatten ++ B ++ rest) B rest hB1 hB3 hBend hB0 hbad
        ((lines.flatten ++ B ++ rest).length + 1) lines.flatten 0 htext hend (by simp) hfuel]
    omega

/-- C2 witness: the container with text line A LF and binary line BEL LF; both
splitters return offset 2. -/
theorem preamble_splitter_on_binary_line_w :
    (∀ b ∈ ([7, 10] : List Nat), b ≠ 0) ∧
    findBinaryStart [65, 10, 7, 10] = 2 ∧ read_text_header [65, 10, 7, 10] = 2 := by
  have h := preamble_splitter_on_binary_line [[65, 10]] [7, 10] [] (by decide) (by decide)
    (by decide) (by decide) (by decide) (by decide)
  have hdata : ([[65, 10]] : List (List Nat)).flatten ++ [7, 10] ++ [] = [65, 10, 7, 10] := by
    decide
  have hlen : ([[65, 10]] : List (List Nat)).flatten.length = 2 := by decide
  rw [hdata, hlen] at h
  exact ⟨by decide, h.1, h.2⟩

/-- C8 counterexample: on a payload holding 26 recoverable records, a first
call of parse_comps_database from the zero global count recovers 26
components, so a retry of the same call inside the same process starts at
global count 26 and emits only 24 components before the cumulative 50 cap
breaks the walk: the retried invocation does not reproduce the first
sequence. -/
theorem retry_emits_fewer :
    (parse_comps_database retryPayload 0 0).length = 26 ∧
    (parse_comps_database retryPayload 0 26).length = 24 ∧
    parse_comps_database retryPayload 0 26 ≠ parse_comps_database retryPayload 0 0 := by
  have h1 : (parse_comps_database retryPayload 0 0).length = 26 := by decide
  have htake : parse_comps_database retryPayload 0 26 =
      (parse_comps_database retryPayload 0 0).take 24 := by
    unfold parse_comps_database
    by_cases hd : 0 < (findMarkers retryPayload (readFieldsF 21 retryPayload (0 + 6) 0)).1
    · rw [if_pos hd, if_pos hd]
      exact walkF_take retryPayload _ _ 26 0 (by omega) (by omega)
    · rw [if_neg hd, if_neg hd]
      simp
  have h2 : (parse_comps_database retryPayload 0 26).length = 24 := by
    rw [htake, List.length_take, h1]
    omega
  refine ⟨h1, h2, fun h => ?_⟩
  rw [h, h1] at h2
  exact absurd h2 (by decide)

/-- C2 counterexample: the container made of the text line A LF followed by
the line NUL LF: the second line contains the byte 0x00, which is below 0x20
and none of CR, LF, tab, so the claim demands the splitter return offset 2,
the start of that line; both splitters scan the line with a C-string loop that
stops at the 0x00 byte, classify it as text, reach end of file and return 0. -/
theorem nul_line_not_detected :
    (∀ b ∈ ([65, 10] : List Nat), 32 ≤ b ∨ b = 13 ∨ b = 10 ∨ b = 9) ∧
    ([65, 10, 0, 10] : List Nat) = [65, 10] ++ [0, 10] ∧
    (0 : Nat) ∈ ([0, 10] : List Nat) ∧ (0 : Nat) < 32 ∧
    ¬ ((0 : Nat) = 13 ∨ (0 : Nat) = 10 ∨ (0 : Nat) = 9) ∧
    ([65, 10] : List Nat).length = 2 ∧
    findBinaryStart [65, 10, 0, 10] = 0 ∧ read_text_header [65, 10, 0, 10] = 0 ∧
    (0 : Nat) ≠ 2 := by decide

end ACD
